import Mathlib

/-!
Verification of the git-credential codec (`src/lib.rs`) against its
specification.  The Rust code is shallowly embedded: strings are lists of
characters, the reader is the list of lines it yields, and the writer is the
string written to it.  The external `url` crate is not part of this
repository; its `Url::parse` / `Display` pair is modelled from the spec
(an absolute-URI parser with path normalisation).
-/

set_option maxRecDepth 4000

/-- Character strings, as the Rust code manipulates them. -/
abbrev Str := List Char

/-- Coerce a Lean string literal to the character-list representation. -/
def str (s : String) : Str := s.data

/-- Split a character list at every occurrence of `c`
(`str::split` in Rust): the result is the list of the separated pieces,
always non-empty, and empty pieces are kept. -/
def splitCh (c : Char) : Str → List Str
  | [] => [[]]
  | x :: xs =>
    if x = c then [] :: splitCh c xs
    else
      match splitCh c xs with
      | [] => [[x]]
      | h :: t => (x :: h) :: t

/-- Rust's `str::split_terminator(c)`: like `split`, except that the final
empty piece is dropped when the string ends with the separator
(or is empty). -/
def split_terminator (c : Char) (s : Str) : List Str :=
  let ps := splitCh c s
  if ps.getLast? = some [] then ps.dropLast else ps

/-- Drop one trailing carriage return, as `BufRead::lines` does for a line
that was terminated by `\r\n`. -/
def stripCR (l : Str) : Str :=
  if l.getLast? = some '\r' then l.dropLast else l

/-- The lines yielded by Rust's `BufRead::lines` on the given input:
pieces separated by `'\n'`; every piece that was actually terminated by a
`'\n'` has one trailing `'\r'` removed; a final empty piece produced by a
trailing newline is not yielded. -/
def linesOf (s : Str) : List Str :=
  let ps := splitCh '\n' s
  let qs := ps.dropLast.map stripCR ++ ps.drop (ps.length - 1)
  if qs.getLast? = some [] then qs.dropLast else qs

/-- Concatenation of a list of character lists. -/
def concatAll : List Str → Str
  | [] => []
  | l :: ls => l ++ concatAll ls

namespace UrlModel

/-- Modelled from the spec: the error type of the external `url` crate's
parser (`url::ParseError`), which is not part of this repository.  Only the
variants the codec can surface are modelled. -/
inductive ParseErr where
  | relativeUrlWithoutBase
  | emptyHost
  deriving DecidableEq, Repr

/-- Modelled from the spec: a parsed absolute URI of the external `url`
crate (`url::Url`), which is not part of this repository.  The spec
describes it as "a parsed absolute URI (protocol, optional userinfo, host,
path)"; userinfo, host and port are kept verbatim in `auth`, and the path is
normalised to start with `'/'`. -/
structure Url where
  scheme : Str
  auth : Str
  path : Str
  deriving DecidableEq, Repr

/-- Split an input at the first occurrence of the `"://"` marker. -/
def splitMarker : Str → Option (Str × Str)
  | [] => none
  | c :: rest =>
    if c = ':' ∧ rest.take 2 = str "//" then some ([], rest.drop 2)
    else (splitMarker rest).map (fun p => (c :: p.1, p.2))

/-- Split an input at the first `'/'`, keeping the slash with the tail. -/
def splitAuth : Str → Str × Str
  | [] => ([], [])
  | c :: rest =>
    if c = '/' then ([], c :: rest)
    else
      let p := splitAuth rest
      (c :: p.1, p.2)

/-- Lower-case ASCII letter, as a scheme's first character must be. -/
def isAlphaLower (c : Char) : Prop := 'a' ≤ c ∧ c ≤ 'z'

instance (c : Char) : Decidable (isAlphaLower c) := by
  unfold isAlphaLower; infer_instance

/-- Characters allowed after the first character of a URI scheme. -/
def isSchemeChar (c : Char) : Prop :=
  ('a' ≤ c ∧ c ≤ 'z') ∨ ('0' ≤ c ∧ c ≤ '9') ∨ c = '+' ∨ c = '-' ∨ c = '.'

instance (c : Char) : Decidable (isSchemeChar c) := by
  unfold isSchemeChar; infer_instance

/-- Modelled from the spec: `Url::parse` of the external `url` crate, on
the absolute-URI shape `scheme://authority/path` the spec describes.  An
input without a valid `scheme://` prefix is not an absolute URI; an empty
authority is an empty host; a missing path is normalised to `/`. -/
def parse (s : Str) : Except ParseErr Url :=
  match splitMarker s with
  | none => .error .relativeUrlWithoutBase
  | some (sch, rest) =>
    match sch with
    | [] => .error .relativeUrlWithoutBase
    | c :: cs =>
      if isAlphaLower c ∧ ∀ x ∈ cs, isSchemeChar x then
        let ap := splitAuth rest
        if ap.1 = [] then .error .emptyHost
        else .ok ⟨c :: cs, ap.1, if ap.2 = [] then ['/'] else ap.2⟩
      else .error .relativeUrlWithoutBase

/-- Modelled from the spec: the `Display` rendering of a parsed URL, used
by `writeln!(sink, "url={}", url)`. -/
def render (u : Url) : Str := u.scheme ++ str "://" ++ u.auth ++ u.path

/-- The shape invariant every URL produced by `parse` satisfies; under it
`parse (render u) = .ok u`. -/
def wellFormed (u : Url) : Prop :=
  u.scheme ≠ [] ∧ (∀ c ∈ u.scheme.take 1, isAlphaLower c) ∧
    (∀ c ∈ u.scheme.drop 1, isSchemeChar c) ∧
    u.auth ≠ [] ∧ '/' ∉ u.auth ∧ u.path.take 1 = ['/']

instance (u : Url) : Decidable (wellFormed u) := by
  unfold wellFormed; infer_instance

end UrlModel

open UrlModel

/-- The error enum of `src/lib.rs`.  `ReadError` and `WriteError` wrap I/O
failures of the underlying stream, which the pure embedding never
produces; `ParseError` carries the offending raw value and the underlying
`url::ParseError`. -/
inductive Error where
  | ReadError
  | WriteError
  | ParseError (value : Str) (source : ParseErr)
  deriving DecidableEq, Repr

/-- One `warn!` emission of `from_reader`: either `"Invalid line: {line}"`
or `"Unknown key: {key} = {value}"`. -/
inductive Warning where
  | invalidLine (line : Str)
  | unknownKey (key value : Str)
  deriving DecidableEq, Repr

/-- The `GitCredential` struct of `src/lib.rs`. -/
structure GitCredential where
  url : Option Url
  protocol : Option Str
  host : Option Str
  path : Option Str
  username : Option Str
  password : Option Str
  deriving DecidableEq, Repr

/-- `GitCredential::default()`: every field `None`. -/
def GitCredential.default : GitCredential :=
  ⟨none, none, none, none, none, none⟩

/-- The line loop of `GitCredential::from_reader`, over the list of lines
the reader yields, threading the record being populated.  Alongside the
Rust return value it collects the `warn!` emissions, so the logged
warnings are part of the model. -/
def from_reader_go : List Str → GitCredential → Except Error GitCredential × List Warning
  | [], gc => (.ok gc, [])
  | l :: ls, gc =>
    if l = [] then (.ok gc, [])
    else
      match split_terminator '=' l with
      | [key, value] =>
        if key = str "url" then
          match UrlModel.parse value with
          | .ok u => from_reader_go ls { gc with url := some u }
          | .error e => (.error (.ParseError value e), [])
        else if key = str "protocol" then from_reader_go ls { gc with protocol := some value }
        else if key = str "host" then from_reader_go ls { gc with host := some value }
        else if key = str "path" then from_reader_go ls { gc with path := some value }
        else if key = str "username" then from_reader_go ls { gc with username := some value }
        else if key = str "password" then from_reader_go ls { gc with password := some value }
        else
          let r := from_reader_go ls gc
          (r.1, .unknownKey key value :: r.2)
      | _ =>
        let r := from_reader_go ls gc
        (r.1, .invalidLine l :: r.2)

/-- `GitCredential::from_reader`: run the line loop on the lines of the
input, starting from the default record. -/
def from_reader (s : Str) : Except Error GitCredential :=
  (from_reader_go (linesOf s) GitCredential.default).1

/-- The warnings `from_reader` logs on the given input. -/
def from_reader_warnings (s : Str) : List Warning :=
  (from_reader_go (linesOf s) GitCredential.default).2

/-- `GitCredential::to_writer`: the text written to the sink — one
`key=value` line per set field, in the fixed source order, then one final
empty line. -/
def to_writer (gc : GitCredential) : Str :=
  (match gc.url with
   | some u => str "url=" ++ UrlModel.render u ++ str "\n"
   | none => []) ++
  (match gc.protocol with
   | some v => str "protocol=" ++ v ++ str "\n"
   | none => []) ++
  (match gc.host with
   | some v => str "host=" ++ v ++ str "\n"
   | none => []) ++
  (match gc.path with
   | some v => str "path=" ++ v ++ str "\n"
   | none => []) ++
  (match gc.username with
   | some v => str "username=" ++ v ++ str "\n"
   | none => []) ++
  (match gc.password with
   | some v => str "password=" ++ v ++ str "\n"
   | none => []) ++
  str "\n"

/-- The `key=value` pair of one optional field, as `to_writer` emits it:
one entry when the field is set, none otherwise. -/
def optEntry (k : Str) (v : Option Str) : List (Str × Str) :=
  match v with
  | some s => [(k, s)]
  | none => []

/-- The `key=value` pairs `to_writer` passes to `writeln!`, in emission
order. -/
def to_writer_entries (gc : GitCredential) : List (Str × Str) :=
  optEntry (str "url") (gc.url.map UrlModel.render) ++
    optEntry (str "protocol") gc.protocol ++
    optEntry (str "host") gc.host ++
    optEntry (str "path") gc.path ++
    optEntry (str "username") gc.username ++
    optEntry (str "password") gc.password

/-- Render one `key=value` pair as the line text `writeln!` produces
(without the newline). -/
def entryLine (kv : Str × Str) : Str := kv.1 ++ '=' :: kv.2

/-- Join line texts with newlines and append the final empty line, as the
sequence of `writeln!` calls in `to_writer` does. -/
def serializeLines (ls : List Str) : Str :=
  concatAll (ls.map (fun l => l ++ ['\n'])) ++ ['\n']

/-- The keys the codec recognises on input and produces on output. -/
def recognizedKeys : List Str :=
  [str "url", str "protocol", str "host", str "path",
   str "username", str "password"]

/-- The effect of one successfully dispatched `key=value` pair on the
record (the success path of the `match key` in `from_reader`). -/
def stepFn (gc : GitCredential) (kv : Str × Str) : GitCredential :=
  if kv.1 = str "url" then
    match UrlModel.parse kv.2 with
    | .ok u => { gc with url := some u }
    | .error _ => gc
  else if kv.1 = str "protocol" then { gc with protocol := some kv.2 }
  else if kv.1 = str "host" then { gc with host := some kv.2 }
  else if kv.1 = str "path" then { gc with path := some kv.2 }
  else if kv.1 = str "username" then { gc with username := some kv.2 }
  else if kv.1 = str "password" then { gc with password := some kv.2 }
  else gc

/-- A field value that survives the wire format unchanged: non-empty, no
`'='`, no newline, and no trailing carriage return. -/
def goodValue (v : Str) : Prop :=
  v ≠ [] ∧ '=' ∉ v ∧ '\n' ∉ v ∧ v.getLast? ≠ some '\r'

instance (v : Str) : Decidable (goodValue v) := by
  unfold goodValue; infer_instance

/-- `goodValue` on an optional field. -/
def goodOpt : Option Str → Prop
  | none => True
  | some v => goodValue v

instance : (o : Option Str) → Decidable (goodOpt o)
  | none => .isTrue trivial
  | some v => (inferInstance : Decidable (goodValue v))

/-- A url field whose rendering survives the wire format unchanged. -/
def goodUrlOpt : Option Url → Prop
  | none => True
  | some u => wellFormed u ∧ goodValue (UrlModel.render u)

instance : (o : Option Url) → Decidable (goodUrlOpt o)
  | none => .isTrue trivial
  | some u => (inferInstance : Decidable (wellFormed u ∧ goodValue (UrlModel.render u)))

/-- A record whose set fields all survive the wire format unchanged. -/
def goodRecord (gc : GitCredential) : Prop :=
  goodUrlOpt gc.url ∧ goodOpt gc.protocol ∧ goodOpt gc.host ∧
    goodOpt gc.path ∧ goodOpt gc.username ∧ goodOpt gc.password

instance (gc : GitCredential) : Decidable (goodRecord gc) := by
  unfold goodRecord; infer_instance

/-- The goodness condition on a `key=value` pair that makes the parse loop
consume its rendered line as one dispatch step. -/
def goodEntry (kv : Str × Str) : Prop :=
  kv.1 ∈ recognizedKeys ∧ '=' ∉ kv.1 ∧ goodValue kv.2 ∧
    (kv.1 = str "url" → ∃ u, UrlModel.parse kv.2 = .ok u)

/-- The URL `https://example.com/` of the spec's normalisation example. -/
def exUrlCom : Url := ⟨str "https", str "example.com", str "/"⟩

/-- The fully populated example record of the spec's field-order test. -/
def exRecord : GitCredential :=
  ⟨some ⟨str "https", str "example.com", str "/myproject.git"⟩,
    some (str "https"), some (str "example.com"), some (str "myproject.git"),
    some (str "me"), some (str "%sec&ret!")⟩

instance {ε α : Type} [DecidableEq ε] [DecidableEq α] : DecidableEq (Except ε α) :=
  fun a b =>
    match a, b with
    | .ok x, .ok y =>
      match decEq x y with
      | .isTrue h => .isTrue (by rw [h])
      | .isFalse h => .isFalse (by intro he; cases he; exact h rfl)
    | .ok _, .error _ => .isFalse (by intro h; cases h)
    | .error _, .ok _ => .isFalse (by intro h; cases h)
    | .error x, .error y =>
      match decEq x y with
      | .isTrue h => .isTrue (by rw [h])
      | .isFalse h => .isFalse (by intro he; cases he; exact h rfl)

theorem splitCh_ne_nil (c : Char) (s : Str) : splitCh c s ≠ [] := by
  induction s with
  | nil => simp [splitCh]
  | cons x xs ih =>
    rw [splitCh]
    by_cases hx : x = c
    · simp [hx]
    · rw [if_neg hx]
      cases h : splitCh c xs with
      | nil => simp
      | cons h' t => simp

theorem splitCh_sep (c : Char) (pre post : Str) (h : c ∉ pre) :
    splitCh c (pre ++ c :: post) = pre :: splitCh c post := by
  induction pre with
  | nil => simp [splitCh]
  | cons x xs ih =>
    have hx : x ≠ c := by
      intro e; exact h (by simp [e])
    have h' : c ∉ xs := by
      intro e; exact h (by simp [e])
    rw [List.cons_append, splitCh, if_neg hx, ih h']

theorem splitCh_no (c : Char) (l : Str) (h : c ∉ l) : splitCh c l = [l] := by
  induction l with
  | nil => rfl
  | cons x xs ih =>
    have hx : x ≠ c := by
      intro e; exact h (by simp [e])
    have h' : c ∉ xs := by
      intro e; exact h (by simp [e])
    rw [splitCh, if_neg hx, ih h']

theorem split_term_entry (k v : Str) (hk : '=' ∉ k) (hv : '=' ∉ v) (hvn : v ≠ []) :
    split_terminator '=' (k ++ '=' :: v) = [k, v] := by
  unfold split_terminator
  rw [splitCh_sep '=' k v hk, splitCh_no '=' v hv]
  simp [hvn]

theorem split_terminator_nil (c : Char) : split_terminator c [] = [] := by
  simp [split_terminator, splitCh]

theorem splitCh_serializeLines (ls : List Str) (h : ∀ l ∈ ls, '\n' ∉ l) :
    splitCh '\n' (serializeLines ls) = ls ++ [[], []] := by
  induction ls with
  | nil => rfl
  | cons l t ih =>
    have hl : '\n' ∉ l := h l (by simp)
    have ht : ∀ x ∈ t, '\n' ∉ x := fun x hx => h x (by simp [hx])
    show splitCh '\n' (concatAll ((l :: t).map (fun x => x ++ ['\n'])) ++ ['\n']) = _
    rw [List.map_cons]
    show splitCh '\n' ((l ++ ['\n']) ++ _ ++ ['\n']) = _
    have : (l ++ ['\n']) ++ concatAll (t.map (fun x => x ++ ['\n'])) ++ ['\n'] =
        l ++ '\n' :: serializeLines t := by
      simp [serializeLines]
    rw [this, splitCh_sep '\n' l _ hl, ih ht]
    rfl

theorem map_stripCR_id (ls : List Str) (h : ∀ l ∈ ls, stripCR l = l) :
    ls.map stripCR = ls := by
  induction ls with
  | nil => rfl
  | cons l t ih =>
    rw [List.map_cons, h l (by simp), ih fun x hx => h x (by simp [hx])]

theorem linesOf_serializeLines (ls : List Str)
    (h : ∀ l ∈ ls, '\n' ∉ l ∧ stripCR l = l) :
    linesOf (serializeLines ls) = ls ++ [[]] := by
  have e2 : ls ++ [([] : Str), []] = (ls ++ [[]]) ++ [[]] := by simp
  have hdrop : (ls ++ [([] : Str), []]).dropLast = ls ++ [[]] := by
    rw [e2, List.dropLast_concat]
  have hlen : (ls ++ [([] : Str), []]).length - 1 = (ls ++ [([] : Str)]).length := by
    simp
  have hdropn : (ls ++ [([] : Str), []]).drop ((ls ++ [([] : Str), []]).length - 1) = [[]] := by
    rw [hlen, e2, List.drop_left]
  have hmap : (ls ++ [([] : Str)]).map stripCR = ls ++ [[]] := by
    apply map_stripCR_id
    intro l hl
    rcases List.mem_append.mp hl with h1 | h1
    · exact (h l h1).2
    · simp at h1; subst h1; rfl
  have hq : (ls ++ [([] : Str)]) ++ [[]] = ls ++ [[], []] := by simp
  have hlast : (ls ++ [([] : Str), []]).getLast? = some [] := by
    rw [e2, List.getLast?_concat]
  unfold linesOf
  simp only [splitCh_serializeLines ls (fun l hl => (h l hl).1), hdrop, hdropn, hmap, hq,
    hlast, if_pos]

theorem go_line_ne_nil {l : Str} {k v : Str}
    (hs : split_terminator '=' l = [k, v]) : l ≠ [] := by
  intro e; subst e; rw [split_terminator_nil] at hs; cases hs

theorem go_cons_url_ok (l v : Str) (u : Url) (ls : List Str) (gc : GitCredential)
    (hs : split_terminator '=' l = [str "url", v]) (hp : UrlModel.parse v = .ok u) :
    from_reader_go (l :: ls) gc = from_reader_go ls { gc with url := some u } := by
  simp only [from_reader_go, if_neg (go_line_ne_nil hs), hs, ite_true, hp]

theorem go_cons_url_err (l v : Str) (e : ParseErr) (ls : List Str) (gc : GitCredential)
    (hs : split_terminator '=' l = [str "url", v]) (hp : UrlModel.parse v = .error e) :
    from_reader_go (l :: ls) gc = (.error (.ParseError v e), []) := by
  simp only [from_reader_go, if_neg (go_line_ne_nil hs), hs, ite_true, hp]

theorem go_cons_protocol (l v : Str) (ls : List Str) (gc : GitCredential)
    (hs : split_terminator '=' l = [str "protocol", v]) :
    from_reader_go (l :: ls) gc = from_reader_go ls { gc with protocol := some v } := by
  simp only [from_reader_go, if_neg (go_line_ne_nil hs), hs,
    if_neg (by decide : ¬(str "protocol" = str "url")), ite_true]

theorem go_cons_host (l v : Str) (ls : List Str) (gc : GitCredential)
    (hs : split_terminator '=' l = [str "host", v]) :
    from_reader_go (l :: ls) gc = from_reader_go ls { gc with host := some v } := by
  simp only [from_reader_go, if_neg (go_line_ne_nil hs), hs,
    if_neg (by decide : ¬(str "host" = str "url")),
    if_neg (by decide : ¬(str "host" = str "protocol")), ite_true]

theorem go_cons_path (l v : Str) (ls : List Str) (gc : GitCredential)
    (hs : split_terminator '=' l = [str "path", v]) :
    from_reader_go (l :: ls) gc = from_reader_go ls { gc with path := some v } := by
  simp only [from_reader_go, if_neg (go_line_ne_nil hs), hs,
    if_neg (by decide : ¬(str "path" = str "url")),
    if_neg (by decide : ¬(str "path" = str "protocol")),
    if_neg (by decide : ¬(str "path" = str "host")), ite_true]

theorem go_cons_username (l v : Str) (ls : List Str) (gc : GitCredential)
    (hs : split_terminator '=' l = [str "username", v]) :
    from_reader_go (l :: ls) gc = from_reader_go ls { gc with username := some v } := by
  simp only [from_reader_go, if_neg (go_line_ne_nil hs), hs,
    if_neg (by decide : ¬(str "username" = str "url")),
    if_neg (by decide : ¬(str "username" = str "protocol")),
    if_neg (by decide : ¬(str "username" = str "host")),
    if_neg (by decide : ¬(str "username" = str "path")), ite_true]

theorem go_cons_password (l v : Str) (ls : List Str) (gc : GitCredential)
    (hs : split_terminator '=' l = [str "password", v]) :
    from_reader_go (l :: ls) gc = from_reader_go ls { gc with password := some v } := by
  simp only [from_reader_go, if_neg (go_line_ne_nil hs), hs,
    if_neg (by decide : ¬(str "password" = str "url")),
    if_neg (by decide : ¬(str "password" = str "protocol")),
    if_neg (by decide : ¬(str "password" = str "host")),
    if_neg (by decide : ¬(str "password" = str "path")),
    if_neg (by decide : ¬(str "password" = str "username")), ite_true]

theorem go_cons_unknown (l k v : Str) (ls : List Str) (gc : GitCredential)
    (hs : split_terminator '=' l = [k, v]) (hk : k ∉ recognizedKeys) :
    from_reader_go (l :: ls) gc =
      ((from_reader_go ls gc).1, .unknownKey k v :: (from_reader_go ls gc).2) := by
  have h1 : ¬(k = str "url") := fun e => hk (by rw [e]; simp [recognizedKeys])
  have h2 : ¬(k = str "protocol") := fun e => hk (by rw [e]; simp [recognizedKeys])
  have h3 : ¬(k = str "host") := fun e => hk (by rw [e]; simp [recognizedKeys])
  have h4 : ¬(k = str "path") := fun e => hk (by rw [e]; simp [recognizedKeys])
  have h5 : ¬(k = str "username") := fun e => hk (by rw [e]; simp [recognizedKeys])
  have h6 : ¬(k = str "password") := fun e => hk (by rw [e]; simp [recognizedKeys])
  simp only [from_reader_go, if_neg (go_line_ne_nil hs), hs, if_neg h1, if_neg h2,
    if_neg h3, if_neg h4, if_neg h5, if_neg h6]

theorem go_cons_invalid (l : Str) (ls : List Str) (gc : GitCredential)
    (hl : l ≠ []) (hs : (split_terminator '=' l).length ≠ 2) :
    from_reader_go (l :: ls) gc =
      ((from_reader_go ls gc).1, .invalidLine l :: (from_reader_go ls gc).2) := by
  simp only [from_reader_go, if_neg hl]
  rcases hsp : split_terminator '=' l with _ | ⟨a, _ | ⟨b, _ | ⟨c, t⟩⟩⟩
  · rfl
  · rfl
  · exact absurd (by rw [hsp]; rfl) hs
  · rfl

namespace UrlModel

theorem isAlphaLower_ne_colon {c : Char} (h : isAlphaLower c) : c ≠ ':' := by
  intro e; subst e; exact absurd h (by decide)

theorem isSchemeChar_ne_colon {c : Char} (h : isSchemeChar c) : c ≠ ':' := by
  intro e; subst e; exact absurd h (by decide)

theorem splitMarker_append (pre post : Str) (h : ∀ c ∈ pre, c ≠ ':') :
    splitMarker (pre ++ ':' :: '/' :: '/' :: post) = some (pre, post) := by
  induction pre with
  | nil =>
    show splitMarker (':' :: '/' :: '/' :: post) = _
    rw [splitMarker, if_pos ⟨rfl, rfl⟩]
    rfl
  | cons x xs ih =>
    have hx : x ≠ ':' := h x (by simp)
    rw [List.cons_append, splitMarker,
      if_neg (by intro hc; exact hx hc.1),
      ih fun c hc => h c (by simp [hc])]
    rfl

theorem splitAuth_append (a p : Str) (h : '/' ∉ a) :
    splitAuth (a ++ '/' :: p) = (a, '/' :: p) := by
  induction a with
  | nil =>
    show splitAuth ('/' :: p) = _
    rw [splitAuth, if_pos rfl]
  | cons x xs ih =>
    have hx : x ≠ '/' := by intro e; exact h (by simp [e])
    rw [List.cons_append, splitAuth, if_neg hx,
      ih (by intro e; exact h (by simp [e]))]

theorem splitAuth_fst_no_slash (s : Str) : '/' ∉ (splitAuth s).1 := by
  induction s with
  | nil => simp [splitAuth]
  | cons x xs ih =>
    rw [splitAuth]
    by_cases hx : x = '/'
    · simp [hx]
    · rw [if_neg hx]
      intro hc
      rcases List.mem_cons.mp hc with e | e
      · exact hx e.symm
      · exact ih e

theorem splitAuth_snd_shape (s : Str) :
    (splitAuth s).2 = [] ∨ (splitAuth s).2.take 1 = ['/'] := by
  induction s with
  | nil => simp [splitAuth]
  | cons x xs ih =>
    rw [splitAuth]
    by_cases hx : x = '/'
    · right; rw [if_pos hx, hx]; rfl
    · rw [if_neg hx]; exact ih

theorem parse_eq_of_no_marker {s : Str} (hm : splitMarker s = none) :
    parse s = .error .relativeUrlWithoutBase := by
  unfold parse
  rw [hm]

theorem parse_eq_of_marker_nil {s rest : Str} (hm : splitMarker s = some ([], rest)) :
    parse s = .error .relativeUrlWithoutBase := by
  unfold parse
  rw [hm]

theorem parse_eq_of_marker_cons {s rest : Str} {c : Char} {cs : List Char}
    (hm : splitMarker s = some (c :: cs, rest)) :
    parse s =
      (if isAlphaLower c ∧ ∀ x ∈ cs, isSchemeChar x then
        if (splitAuth rest).1 = [] then Except.error ParseErr.emptyHost
        else Except.ok (Url.mk (c :: cs) (splitAuth rest).1
          (if (splitAuth rest).2 = [] then ['/'] else (splitAuth rest).2))
      else Except.error ParseErr.relativeUrlWithoutBase) := by
  unfold parse
  rw [hm]

theorem parse_wellFormed {s : Str} {u : Url} (h : parse s = .ok u) : wellFormed u := by
  rcases hm : splitMarker s with _ | ⟨sch, rest⟩
  · rw [parse_eq_of_no_marker hm] at h; cases h
  · rcases sch with _ | ⟨c, cs⟩
    · rw [parse_eq_of_marker_nil hm] at h; cases h
    · rw [parse_eq_of_marker_cons hm] at h
      by_cases hc : isAlphaLower c ∧ ∀ x ∈ cs, isSchemeChar x
      · rw [if_pos hc] at h
        by_cases ha : (splitAuth rest).1 = []
        · rw [if_pos ha] at h; cases h
        · rw [if_neg ha] at h
          simp only [Except.ok.injEq] at h
          subst h
          refine ⟨by simp, ?_, ?_, ha, splitAuth_fst_no_slash rest, ?_⟩
          · intro x hx
            simp [List.take] at hx
            rw [hx]; exact hc.1
          · intro x hx
            simp [List.drop] at hx
            exact hc.2 x hx
          · show (if (splitAuth rest).2 = [] then ['/'] else (splitAuth rest).2).take 1 = ['/']
            by_cases hp : (splitAuth rest).2 = []
            · rw [if_pos hp]; rfl
            · rw [if_neg hp]
              rcases splitAuth_snd_shape rest with h2 | h2
              · exact absurd h2 hp
              · exact h2
      · rw [if_neg hc] at h; cases h

theorem parse_render {u : Url} (h : wellFormed u) : parse (render u) = .ok u := by
  obtain ⟨hs, hs1, hs2, ha, hsl, hp⟩ := h
  rcases u with ⟨sch, auth, path⟩
  rcases sch with _ | ⟨c, cs⟩
  · exact absurd rfl hs
  · rcases path with _ | ⟨pc, pr⟩
    · cases hp
    · have hpc : pc = '/' := by
        simp [List.take] at hp; exact hp
      subst hpc
      have hc1 : isAlphaLower c := hs1 c (by simp [List.take])
      have hcs : ∀ x ∈ cs, isSchemeChar x := fun x hx => hs2 x (by simp [List.drop, hx])
      have hne : ∀ x ∈ c :: cs, x ≠ ':' := by
        intro x hx
        rcases List.mem_cons.mp hx with e | e
        · subst e; exact isAlphaLower_ne_colon hc1
        · exact isSchemeChar_ne_colon (hcs x e)
      have hr : render (Url.mk (c :: cs) auth ('/' :: pr)) =
          (c :: cs) ++ ':' :: '/' :: '/' :: (auth ++ '/' :: pr) := by
        simp [render, str]
      rw [hr, parse_eq_of_marker_cons (splitMarker_append (c :: cs) (auth ++ '/' :: pr) hne),
        if_pos ⟨hc1, hcs⟩, splitAuth_append auth pr hsl]
      show (if auth = [] then Except.error ParseErr.emptyHost
        else Except.ok (Url.mk (c :: cs) auth
          (if ('/' :: pr : Str) = [] then ['/'] else '/' :: pr))) =
        Except.ok (Url.mk (c :: cs) auth ('/' :: pr))
      rw [if_neg ha, if_neg (by simp)]

theorem parse_then_render {s : Str} {u : Url} (h : parse s = .ok u) :
    parse (render u) = .ok u :=
  parse_render (parse_wellFormed h)

end UrlModel

theorem go_entries (es : List (Str × Str)) (gc : GitCredential)
    (h : ∀ kv ∈ es, goodEntry kv) :
    from_reader_go (es.map entryLine ++ [[]]) gc = (.ok (es.foldl stepFn gc), []) := by
  induction es generalizing gc with
  | nil =>
    show from_reader_go ([] :: []) gc = _
    rw [from_reader_go, if_pos rfl]
    rfl
  | cons kv es ih =>
    obtain ⟨hk, hke, hv, hu⟩ := h kv (by simp)
    have hrest : ∀ x ∈ es, goodEntry x := fun x hx => h x (by simp [hx])
    have hsplit : split_terminator '=' (entryLine kv) = [kv.1, kv.2] :=
      split_term_entry kv.1 kv.2 hke hv.2.1 hv.1
    rw [List.map_cons, List.cons_append]
    simp only [recognizedKeys, List.mem_cons, List.mem_singleton] at hk
    rcases hk with e | e | e | e | e | e | e
    · obtain ⟨u, hpu⟩ := hu e
      rw [go_cons_url_ok (entryLine kv) kv.2 u _ gc (e ▸ hsplit) hpu, ih _ hrest]
      have : stepFn gc kv = { gc with url := some u } := by
        unfold stepFn
        rw [if_pos e, hpu]
      rw [List.foldl_cons, this]
    · rw [go_cons_protocol (entryLine kv) kv.2 _ gc (e ▸ hsplit), ih _ hrest]
      have : stepFn gc kv = { gc with protocol := some kv.2 } := by
        unfold stepFn
        rw [if_neg (by rw [e]; decide), if_pos e]
      rw [List.foldl_cons, this]
    · rw [go_cons_host (entryLine kv) kv.2 _ gc (e ▸ hsplit), ih _ hrest]
      have : stepFn gc kv = { gc with host := some kv.2 } := by
        unfold stepFn
        rw [if_neg (by rw [e]; decide), if_neg (by rw [e]; decide), if_pos e]
      rw [List.foldl_cons, this]
    · rw [go_cons_path (entryLine kv) kv.2 _ gc (e ▸ hsplit), ih _ hrest]
      have : stepFn gc kv = { gc with path := some kv.2 } := by
        unfold stepFn
        rw [if_neg (by rw [e]; decide), if_neg (by rw [e]; decide),
          if_neg (by rw [e]; decide), if_pos e]
      rw [List.foldl_cons, this]
    · rw [go_cons_username (entryLine kv) kv.2 _ gc (e ▸ hsplit), ih _ hrest]
      have : stepFn gc kv = { gc with username := some kv.2 } := by
        unfold stepFn
        rw [if_neg (by rw [e]; decide), if_neg (by rw [e]; decide),
          if_neg (by rw [e]; decide), if_neg (by rw [e]; decide), if_pos e]
      rw [List.foldl_cons, this]
    · rw [go_cons_password (entryLine kv) kv.2 _ gc (e ▸ hsplit), ih _ hrest]
      have : stepFn gc kv = { gc with password := some kv.2 } := by
        unfold stepFn
        rw [if_neg (by rw [e]; decide), if_neg (by rw [e]; decide),
          if_neg (by rw [e]; decide), if_neg (by rw [e]; decide),
          if_neg (by rw [e]; decide), if_pos e]
      rw [List.foldl_cons, this]
    · exact absurd e (List.not_mem_nil _)

theorem to_writer_eq_serialize (gc : GitCredential) :
    to_writer gc = serializeLines ((to_writer_entries gc).map entryLine) := by
  rcases gc with ⟨u, p, h, pa, un, pw⟩
  cases u <;> cases p <;> cases h <;> cases pa <;> cases un <;> cases pw <;>
    simp [to_writer, to_writer_entries, optEntry, entryLine, serializeLines, concatAll, str]

theorem foldl_optEntry_url (g : GitCredential) (o : Option Url)
    (h : ∀ u, o = some u → wellFormed u) :
    List.foldl stepFn g (optEntry (str "url") (o.map UrlModel.render)) =
      { g with url := o.or g.url } := by
  cases o with
  | none => rfl
  | some u =>
    show List.foldl stepFn g [(str "url", UrlModel.render u)] = _
    rw [List.foldl_cons, List.foldl_nil]
    unfold stepFn
    rw [if_pos rfl]
    show (match UrlModel.parse (UrlModel.render u) with
      | .ok u' => { g with url := some u' }
      | .error _ => g) = _
    rw [parse_render (h u rfl)]
    rfl

theorem foldl_optEntry_protocol (g : GitCredential) (o : Option Str) :
    List.foldl stepFn g (optEntry (str "protocol") o) = { g with protocol := o.or g.protocol } := by
  cases o with
  | none => rfl
  | some v => rfl

theorem foldl_optEntry_host (g : GitCredential) (o : Option Str) :
    List.foldl stepFn g (optEntry (str "host") o) = { g with host := o.or g.host } := by
  cases o with
  | none => rfl
  | some v => rfl

theorem foldl_optEntry_path (g : GitCredential) (o : Option Str) :
    List.foldl stepFn g (optEntry (str "path") o) = { g with path := o.or g.path } := by
  cases o with
  | none => rfl
  | some v => rfl

theorem foldl_optEntry_username (g : GitCredential) (o : Option Str) :
    List.foldl stepFn g (optEntry (str "username") o) = { g with username := o.or g.username } := by
  cases o with
  | none => rfl
  | some v => rfl

theorem foldl_optEntry_password (g : GitCredential) (o : Option Str) :
    List.foldl stepFn g (optEntry (str "password") o) = { g with password := o.or g.password } := by
  cases o with
  | none => rfl
  | some v => rfl

theorem foldl_entries_eq (gc : GitCredential)
    (h : ∀ u, gc.url = some u → wellFormed u) :
    List.foldl stepFn GitCredential.default (to_writer_entries gc) = gc := by
  unfold to_writer_entries
  rw [List.foldl_append, List.foldl_append, List.foldl_append, List.foldl_append,
    List.foldl_append]
  rw [foldl_optEntry_url GitCredential.default gc.url h, foldl_optEntry_protocol,
    foldl_optEntry_host, foldl_optEntry_path, foldl_optEntry_username,
    foldl_optEntry_password]
  show (⟨gc.url.or none, gc.protocol.or none, gc.host.or none, gc.path.or none,
    gc.username.or none, gc.password.or none⟩ : GitCredential) = gc
  simp [Option.or_none]

theorem mem_optEntry {kv : Str × Str} {k : Str} {o : Option Str} (h : kv ∈ optEntry k o) :
    ∃ v, o = some v ∧ kv = (k, v) := by
  cases o with
  | none => cases h
  | some v =>
    simp only [optEntry, List.mem_singleton] at h
    exact ⟨v, rfl, h⟩

theorem goodEntry_mk (k v : Str) (h1 : k ∈ recognizedKeys) (h2 : '=' ∉ k)
    (h3 : goodValue v) (h4 : k = str "url" → ∃ u, UrlModel.parse v = .ok u) :
    goodEntry (k, v) :=
  ⟨h1, h2, h3, h4⟩

theorem entries_good (gc : GitCredential) (h : goodRecord gc) :
    ∀ kv ∈ to_writer_entries gc, goodEntry kv := by
  obtain ⟨hu, hp, hh, hpa, hun, hpw⟩ := h
  intro kv hkv
  unfold to_writer_entries at hkv
  rcases List.mem_append.mp hkv with hkv | hkv6
  rcases List.mem_append.mp hkv with hkv | hkv5
  rcases List.mem_append.mp hkv with hkv | hkv4
  rcases List.mem_append.mp hkv with hkv | hkv3
  rcases List.mem_append.mp hkv with hkv1 | hkv2
  · rcases hgu : gc.url with _ | u
    · rw [hgu] at hkv1
      cases hkv1
    · rw [hgu] at hkv1 hu
      obtain ⟨v, hv, he⟩ := mem_optEntry hkv1
      obtain ⟨hwf, hgv⟩ := hu
      have hvu : v = UrlModel.render u := by
        have : some (UrlModel.render u) = some v := hv
        injection this with e
        exact e.symm
      subst he
      subst hvu
      exact goodEntry_mk _ _ (by simp [recognizedKeys]) (by decide) hgv
        (fun _ => ⟨u, parse_render hwf⟩)
  · obtain ⟨v, hv, he⟩ := mem_optEntry hkv2
    subst he
    rw [hv] at hp
    exact goodEntry_mk _ _ (by simp [recognizedKeys]) (by decide) hp
      (fun e => absurd e (by decide))
  · obtain ⟨v, hv, he⟩ := mem_optEntry hkv3
    subst he
    rw [hv] at hh
    exact goodEntry_mk _ _ (by simp [recognizedKeys]) (by decide) hh
      (fun e => absurd e (by decide))
  · obtain ⟨v, hv, he⟩ := mem_optEntry hkv4
    subst he
    rw [hv] at hpa
    exact goodEntry_mk _ _ (by simp [recognizedKeys]) (by decide) hpa
      (fun e => absurd e (by decide))
  · obtain ⟨v, hv, he⟩ := mem_optEntry hkv5
    subst he
    rw [hv] at hun
    exact goodEntry_mk _ _ (by simp [recognizedKeys]) (by decide) hun
      (fun e => absurd e (by decide))
  · obtain ⟨v, hv, he⟩ := mem_optEntry hkv6
    subst he
    rw [hv] at hpw
    exact goodEntry_mk _ _ (by simp [recognizedKeys]) (by decide) hpw
      (fun e => absurd e (by decide))

theorem getLast?_key_entry (k : Str) (c : Char) (v : Str) (hv : v ≠ []) :
    (k ++ c :: v).getLast? = v.getLast? := by
  rw [List.getLast?_append]
  rcases v with _ | ⟨x, xs⟩
  · exact absurd rfl hv
  · rw [List.getLast?_cons_cons]
    rcases hl : (x :: xs).getLast? with _ | w
    · rw [List.getLast?_eq_none_iff] at hl; cases hl
    · rfl

theorem key_no_newline {k : Str} (hk : k ∈ recognizedKeys) : '\n' ∉ k := by
  simp only [recognizedKeys, List.mem_cons, List.mem_singleton] at hk
  rcases hk with e | e | e | e | e | e | e <;> first
    | (subst e; decide)
    | exact absurd e (List.not_mem_nil _)

theorem entry_lines_good (es : List (Str × Str)) (h : ∀ kv ∈ es, goodEntry kv) :
    ∀ l ∈ es.map entryLine, '\n' ∉ l ∧ stripCR l = l := by
  intro l hl
  obtain ⟨kv, hkv, he⟩ := List.mem_map.mp hl
  obtain ⟨hk, hke, hv, _⟩ := h kv hkv
  subst he
  constructor
  · unfold entryLine
    intro hc
    rcases List.mem_append.mp hc with hc | hc
    · exact key_no_newline hk hc
    · rcases List.mem_cons.mp hc with e | e
      · cases e
      · exact hv.2.2.1 e
  · unfold stripCR entryLine
    rw [getLast?_key_entry kv.1 '=' kv.2 hv.1, if_neg hv.2.2.2]

/-- Auxiliary form of the round trip: under `goodRecord`, serialize then
parse restores the record. -/
theorem round_trip_aux (gc : GitCredential) (h : goodRecord gc) :
    from_reader (to_writer gc) = .ok gc := by
  have hurl : ∀ u, gc.url = some u → wellFormed u := by
    intro u hu
    have := h.1
    rw [hu] at this
    exact this.1
  unfold from_reader
  rw [to_writer_eq_serialize,
    linesOf_serializeLines _ (entry_lines_good _ (entries_good gc h)),
    go_entries _ _ (entries_good gc h), foldl_entries_eq gc hurl]

theorem length_two_shape {α : Type} (xs : List α) (h : xs.length = 2) :
    ∃ a b, xs = [a, b] := by
  rcases xs with _ | ⟨a, rest1⟩
  · simp at h
  rcases rest1 with _ | ⟨b, rest2⟩
  · simp at h
  rcases rest2 with _ | ⟨c, t⟩
  · exact ⟨a, b, rfl⟩
  · simp only [List.length_cons] at h
    omega

theorem entry_keys_recognized (gc : GitCredential) :
    ∀ kv ∈ to_writer_entries gc, kv.1 ∈ recognizedKeys := by
  intro kv hkv
  unfold to_writer_entries at hkv
  rcases List.mem_append.mp hkv with hkv | hkv6
  rcases List.mem_append.mp hkv with hkv | hkv5
  rcases List.mem_append.mp hkv with hkv | hkv4
  rcases List.mem_append.mp hkv with hkv | hkv3
  rcases List.mem_append.mp hkv with hkv1 | hkv2
  · rcases hgu : gc.url with _ | u
    · rw [hgu] at hkv1
      cases hkv1
    · rw [hgu] at hkv1
      obtain ⟨v, _, he⟩ := mem_optEntry hkv1
      subst he
      simp [recognizedKeys]
  · obtain ⟨v, _, he⟩ := mem_optEntry hkv2
    subst he
    simp [recognizedKeys]
  · obtain ⟨v, _, he⟩ := mem_optEntry hkv3
    subst he
    simp [recognizedKeys]
  · obtain ⟨v, _, he⟩ := mem_optEntry hkv4
    subst he
    simp [recognizedKeys]
  · obtain ⟨v, _, he⟩ := mem_optEntry hkv5
    subst he
    simp [recognizedKeys]
  · obtain ⟨v, _, he⟩ := mem_optEntry hkv6
    subst he
    simp [recognizedKeys]

/-- C1 (counterexample): round-tripping is not exact for arbitrary field
values.  A password containing `=` serializes to `password=a=b`, which the
parser skips (three split pieces), so the value is lost; an empty username
serializes to `username=`, which is also skipped; a URL whose rendering
contains `=` serializes to a line the parser skips.  In each case
serialize-then-parse returns the empty record, not the original. -/
theorem c1_round_trip_counterexample :
    to_writer ⟨none, none, none, none, none, some (str "a=b")⟩ = str "password=a=b\n\n" ∧
    from_reader (to_writer ⟨none, none, none, none, none, some (str "a=b")⟩) =
      .ok GitCredential.default ∧
    (⟨none, none, none, none, none, some (str "a=b")⟩ : GitCredential) ≠
      GitCredential.default ∧
    from_reader (to_writer ⟨none, none, none, none, some [], none⟩) =
      .ok GitCredential.default ∧
    (⟨none, none, none, none, some [], none⟩ : GitCredential) ≠ GitCredential.default ∧
    from_reader (to_writer ⟨some ⟨str "https", str "h", str "/a=b"⟩, none, none, none,
      none, none⟩) = .ok GitCredential.default ∧
    (⟨some ⟨str "https", str "h", str "/a=b"⟩, none, none, none, none, none⟩ :
      GitCredential) ≠ GitCredential.default := by
  refine ⟨rfl, rfl, by decide, rfl, by decide, rfl, by decide⟩

/-- C1 (amended): for every record whose set string fields are non-empty
and contain no `=`, no newline and no trailing carriage return, and whose
url (if set) is a well-formed parsed URL whose rendering likewise survives
the line format, serializing with `to_writer` and parsing with
`from_reader` yields the original record in all six fields. -/
theorem c1_round_trip (gc : GitCredential) (h : goodRecord gc) :
    from_reader (to_writer gc) = .ok gc :=
  round_trip_aux gc h

/-- C1 witness: the round trip at the spec's fully populated example
record. -/
theorem c1_round_trip_witness :
    goodRecord exRecord ∧ from_reader (to_writer exRecord) = .ok exRecord :=
  ⟨by decide, c1_round_trip exRecord (by decide)⟩

/-- C2 (counterexample): the claim says a line is split at the first `=`
(value = whole remainder) and only `=`-free lines are malformed.  But
`password=a=b` contains `=` and would give password `a=b` under the claim;
the code splits at every `=`, obtains three pieces, and skips the line, so
parsing returns the empty record. -/
theorem c2_split_counterexample :
    split_terminator '=' (str "password=a=b") = [str "password", str "a", str "b"] ∧
    from_reader (str "password=a=b\n\n") = .ok GitCredential.default ∧
    GitCredential.default.password = none := by
  refine ⟨rfl, rfl, rfl⟩

/-- C2 (amended): parse splits every non-empty line on every `=`
(dropping one trailing empty piece); a line that does not yield exactly
two pieces is skipped with an `Invalid line` warning, without failing the
parse and without modifying any field, and parsing then continues with
the next line. -/
theorem c2_malformed_skip :
    (∀ (l : Str) (rest : List Str) (gc : GitCredential),
      l ≠ [] → (split_terminator '=' l).length ≠ 2 →
      from_reader_go (l :: rest) gc =
        ((from_reader_go rest gc).1, .invalidLine l :: (from_reader_go rest gc).2)) ∧
    from_reader (str "not-a-kv-pair\nusername=me\n\n") =
      .ok { GitCredential.default with username := some (str "me") } :=
  ⟨fun l rest gc hl hs => go_cons_invalid l rest gc hl hs, by rfl⟩

/-- C2 witness: the malformed line `not-a-kv-pair` is skipped with a
warning and the parse continues. -/
theorem c2_malformed_skip_witness :
    from_reader_go [str "not-a-kv-pair"] GitCredential.default =
      ((from_reader_go [] GitCredential.default).1,
        .invalidLine (str "not-a-kv-pair") :: (from_reader_go [] GitCredential.default).2) :=
  c2_malformed_skip.1 (str "not-a-kv-pair") [] GitCredential.default (by decide) (by decide)

/-- C3 (counterexample): the claim quantifies over every input containing
a `url=<value>` line with an invalid value.  It fails on two inputs: in
`url=a=b` the value `a=b` is not a valid URI, yet the line is skipped (it
splits into three pieces) and parsing succeeds; and after a blank
terminator line a `url=not a url` line is never read, so parsing succeeds
as well. -/
theorem c3_invalid_url_counterexample :
    UrlModel.parse (str "a=b") = .error .relativeUrlWithoutBase ∧
    from_reader (str "url=a=b\n\n") = .ok GitCredential.default ∧
    UrlModel.parse (str "not a url") = .error .relativeUrlWithoutBase ∧
    from_reader (str "\nurl=not a url\n\n") = .ok GitCredential.default := by
  refine ⟨rfl, rfl, rfl, rfl⟩

/-- C3 (amended): whenever the line loop reaches a line that splits into
exactly `url` and a value: if the value is not a valid absolute URI the
whole parse fails immediately with a `ParseError` carrying the raw value
(no partial record is returned), and if it is valid the url field is set
to the parsed URI and parsing continues.  In particular
`url=not a url` makes `from_reader` fail. -/
theorem c3_url_dispatch :
    (∀ (l v : Str) (e : ParseErr) (rest : List Str) (gc : GitCredential),
      split_terminator '=' l = [str "url", v] → UrlModel.parse v = .error e →
      from_reader_go (l :: rest) gc = (.error (.ParseError v e), [])) ∧
    (∀ (l v : Str) (u : Url) (rest : List Str) (gc : GitCredential),
      split_terminator '=' l = [str "url", v] → UrlModel.parse v = .ok u →
      from_reader_go (l :: rest) gc = from_reader_go rest { gc with url := some u }) ∧
    from_reader (str "url=not a url\n\n") =
      .error (.ParseError (str "not a url") .relativeUrlWithoutBase) :=
  ⟨fun l v e rest gc hs hp => go_cons_url_err l v e rest gc hs hp,
   fun l v u rest gc hs hp => go_cons_url_ok l v u rest gc hs hp,
   by rfl⟩

/-- C3 witness: both directions of the url dispatch at concrete lines. -/
theorem c3_url_dispatch_witness :
    from_reader_go [str "url=not a url"] GitCredential.default =
      (.error (.ParseError (str "not a url") .relativeUrlWithoutBase), []) ∧
    from_reader_go [str "url=https://example.com"] GitCredential.default =
      from_reader_go [] { GitCredential.default with url := some exUrlCom } :=
  ⟨c3_url_dispatch.1 (str "url=not a url") (str "not a url") .relativeUrlWithoutBase []
      GitCredential.default (by decide) (by decide),
   c3_url_dispatch.2.1 (str "url=https://example.com") (str "https://example.com")
      exUrlCom [] GitCredential.default (by decide) (by decide)⟩

/-- C4: `to_writer` emits one `key=value` line per set field in exactly
the order url, protocol, host, path, username, password, then exactly one
trailing empty line; a record with all six fields set produces exactly
the six key lines followed by the blank line, and the empty record
produces just the blank line. -/
theorem c4_output_order :
    (∀ (u : Url) (p h pa un pw : Str),
      to_writer ⟨some u, some p, some h, some pa, some un, some pw⟩ =
        str "url=" ++ UrlModel.render u ++ str "\n" ++
        (str "protocol=" ++ p ++ str "\n") ++
        (str "host=" ++ h ++ str "\n") ++
        (str "path=" ++ pa ++ str "\n") ++
        (str "username=" ++ un ++ str "\n") ++
        (str "password=" ++ pw ++ str "\n") ++ str "\n") ∧
    to_writer GitCredential.default = str "\n" ∧
    (∀ gc : GitCredential,
      to_writer gc = serializeLines ((to_writer_entries gc).map entryLine)) :=
  ⟨fun _ _ _ _ _ _ => rfl, rfl, to_writer_eq_serialize⟩

/-- C5: a line whose key is not one of the six recognized keys is ignored
with an `Unknown key` warning — parsing continues with unchanged fields
and never fails because of it — and every `key=value` pair `to_writer`
emits uses one of the six recognized keys. -/
theorem c5_unknown_keys :
    (∀ (l k v : Str) (rest : List Str) (gc : GitCredential),
      split_terminator '=' l = [k, v] → k ∉ recognizedKeys →
      from_reader_go (l :: rest) gc =
        ((from_reader_go rest gc).1, .unknownKey k v :: (from_reader_go rest gc).2)) ∧
    (∀ gc : GitCredential, ∀ kv ∈ to_writer_entries gc, kv.1 ∈ recognizedKeys) ∧
    from_reader (str "foo=bar\nusername=me\n\n") =
      .ok { GitCredential.default with username := some (str "me") } :=
  ⟨fun l k v rest gc hs hk => go_cons_unknown l k v rest gc hs hk,
   entry_keys_recognized, by rfl⟩

/-- C5 witness: the unknown key `foo` is skipped with a warning, and the
key of a concrete emitted entry is recognized. -/
theorem c5_unknown_keys_witness :
    from_reader_go [str "foo=bar"] GitCredential.default =
      ((from_reader_go [] GitCredential.default).1,
        .unknownKey (str "foo") (str "bar") :: (from_reader_go [] GitCredential.default).2) ∧
    (str "username", str "me").1 ∈ recognizedKeys :=
  ⟨c5_unknown_keys.1 (str "foo=bar") (str "foo") (str "bar") [] GitCredential.default
      (by decide) (by decide),
   c5_unknown_keys.2.1 { GitCredential.default with username := some (str "me") }
      (str "username", str "me") (by decide)⟩

/-- C6: the line loop stops at the first empty line — whatever follows an
empty line has no effect on the result — and end of stream without a
blank line still succeeds with the fields accumulated so far, as parsing
`username=me` with no trailing newline shows. -/
theorem c6_stop_at_blank :
    (∀ (rest : List Str) (gc : GitCredential),
      from_reader_go ([] :: rest) gc = (.ok gc, [])) ∧
    (∀ (pre rest : List Str) (gc : GitCredential),
      from_reader_go (pre ++ [] :: rest) gc = from_reader_go (pre ++ [[]]) gc) ∧
    from_reader (str "username=me") =
      .ok { GitCredential.default with username := some (str "me") } := by
  refine ⟨fun rest gc => by simp [from_reader_go], ?_, by rfl⟩
  intro pre rest gc
  induction pre generalizing gc with
  | nil => rfl
  | cons l pre ih =>
    by_cases hl : l = []
    · subst hl; rfl
    · show from_reader_go (l :: (pre ++ [] :: rest)) gc =
        from_reader_go (l :: (pre ++ [[]])) gc
      simp only [from_reader_go, if_neg hl, ih]

/-- C7 (counterexample): the claim says values are stored verbatim.  On
the line `host=a=` the text after the first `=` is `a=`, but
`split_terminator` drops the trailing empty piece, yields `[host, a]`,
and the code stores `a` — a transformed value, not the verbatim one. -/
theorem c7_verbatim_counterexample :
    from_reader (str "host=a=\n\n") =
      .ok { GitCredential.default with host := some (str "a") } ∧
    str "a" ≠ str "a=" := by
  refine ⟨rfl, by decide⟩

/-- C7 (amended): for the keys protocol, host, path, username and
password, whenever a line splits into exactly the key and a value, that
second split piece is stored unchanged, and a later occurrence of the
same key overwrites an earlier one, so the last occurrence before the
terminator wins. -/
theorem c7_store_last_wins :
    (∀ (l v : Str) (rest : List Str) (gc : GitCredential),
      split_terminator '=' l = [str "protocol", v] →
      from_reader_go (l :: rest) gc = from_reader_go rest { gc with protocol := some v }) ∧
    (∀ (l v : Str) (rest : List Str) (gc : GitCredential),
      split_terminator '=' l = [str "host", v] →
      from_reader_go (l :: rest) gc = from_reader_go rest { gc with host := some v }) ∧
    (∀ (l v : Str) (rest : List Str) (gc : GitCredential),
      split_terminator '=' l = [str "path", v] →
      from_reader_go (l :: rest) gc = from_reader_go rest { gc with path := some v }) ∧
    (∀ (l v : Str) (rest : List Str) (gc : GitCredential),
      split_terminator '=' l = [str "username", v] →
      from_reader_go (l :: rest) gc = from_reader_go rest { gc with username := some v }) ∧
    (∀ (l v : Str) (rest : List Str) (gc : GitCredential),
      split_terminator '=' l = [str "password", v] →
      from_reader_go (l :: rest) gc = from_reader_go rest { gc with password := some v }) ∧
    from_reader (str "username=a\nusername=b\n\n") =
      .ok { GitCredential.default with username := some (str "b") } :=
  ⟨fun l v rest gc hs => go_cons_protocol l v rest gc hs,
   fun l v rest gc hs => go_cons_host l v rest gc hs,
   fun l v rest gc hs => go_cons_path l v rest gc hs,
   fun l v rest gc hs => go_cons_username l v rest gc hs,
   fun l v rest gc hs => go_cons_password l v rest gc hs,
   by rfl⟩

/-- C7 witness: two of the storing steps at concrete lines. -/
theorem c7_store_last_wins_witness :
    from_reader_go [str "protocol=https"] GitCredential.default =
      from_reader_go [] { GitCredential.default with protocol := some (str "https") } ∧
    from_reader_go [str "password=x"] GitCredential.default =
      from_reader_go [] { GitCredential.default with password := some (str "x") } :=
  ⟨c7_store_last_wins.1 (str "protocol=https") (str "https") [] GitCredential.default
      (by decide),
   c7_store_last_wins.2.2.2.2.1 (str "password=x") (str "x") [] GitCredential.default
      (by decide)⟩

/-- C8: serialization is deterministic — two records that agree on all
six fields produce byte-identical output, so serializing the same record
onto two fresh streams writes the same bytes to both. -/
theorem c8_deterministic (gc₁ gc₂ : GitCredential)
    (h1 : gc₁.url = gc₂.url) (h2 : gc₁.protocol = gc₂.protocol)
    (h3 : gc₁.host = gc₂.host) (h4 : gc₁.path = gc₂.path)
    (h5 : gc₁.username = gc₂.username) (h6 : gc₁.password = gc₂.password) :
    to_writer gc₁ = to_writer gc₂ := by
  rcases gc₁ with ⟨a1, a2, a3, a4, a5, a6⟩
  rcases gc₂ with ⟨b1, b2, b3, b4, b5, b6⟩
  cases h1
  cases h2
  cases h3
  cases h4
  cases h5
  cases h6
  rfl

/-- C8 witness: determinism at the fully populated example record. -/
theorem c8_deterministic_witness : to_writer exRecord = to_writer exRecord :=
  c8_deterministic exRecord exRecord rfl rfl rfl rfl rfl rfl

/-- C9: a non-empty line sets a field only when splitting on every `=`
(with a trailing empty piece dropped) yields exactly two pieces; any
other line is skipped whole with a warning, so `password=a=b` (three
pieces) and `username=` (one piece) both leave the record empty. -/
theorem c9_two_parts_only :
    (∀ (l : Str) (rest : List Str) (gc : GitCredential),
      l ≠ [] → (¬ ∃ k v, split_terminator '=' l = [k, v]) →
      from_reader_go (l :: rest) gc =
        ((from_reader_go rest gc).1, .invalidLine l :: (from_reader_go rest gc).2)) ∧
    from_reader (str "password=a=b\n\n") = .ok GitCredential.default ∧
    from_reader (str "username=\n\n") = .ok GitCredential.default :=
  ⟨fun l rest gc hl hs =>
    go_cons_invalid l rest gc hl (fun hlen =>
      hs (length_two_shape (split_terminator '=' l) hlen)),
   by rfl, by rfl⟩

/-- C9 witness: the three-piece line `password=a=b` is skipped with a
warning. -/
theorem c9_two_parts_only_witness :
    from_reader_go [str "password=a=b"] GitCredential.default =
      ((from_reader_go [] GitCredential.default).1,
        .invalidLine (str "password=a=b") :: (from_reader_go [] GitCredential.default).2) :=
  c9_two_parts_only.1 (str "password=a=b") [] GitCredential.default (by decide)
    (fun hex => by
      obtain ⟨k, v, he⟩ := hex
      have h2 : (split_terminator '=' (str "password=a=b")).length = 2 := by
        rw [he]
        rfl
      exact absurd h2 (by decide))

/-- C10: the url field stores the parsed, normalized URI (parsing its
rendering gives the value back), `to_writer` emits its normalized
rendering, and the emitted line can differ from the parsed one:
`url=https://example.com` re-serializes as `url=https://example.com/`,
while re-parsing the emitted stream restores the same stored value. -/
theorem c10_url_normalized :
    (∀ (s : Str) (u : Url), UrlModel.parse s = .ok u →
      UrlModel.parse (UrlModel.render u) = .ok u) ∧
    from_reader (str "url=https://example.com\n\n") =
      .ok { GitCredential.default with url := some exUrlCom } ∧
    UrlModel.render exUrlCom = str "https://example.com/" ∧
    to_writer { GitCredential.default with url := some exUrlCom } =
      str "url=https://example.com/\n\n" ∧
    from_reader (to_writer { GitCredential.default with url := some exUrlCom }) =
      .ok { GitCredential.default with url := some exUrlCom } :=
  ⟨fun s u h => parse_then_render h, by rfl, by rfl, by rfl, by rfl⟩

/-- C10 witness: parse-then-render identity at `https://example.com`. -/
theorem c10_url_normalized_witness :
    UrlModel.parse (UrlModel.render exUrlCom) = .ok exUrlCom :=
  c10_url_normalized.1 (str "https://example.com") exUrlCom (by rfl)
